import Mathlib

/-!
Verification of the Hermod routing and transformation engine.

This file gives a shallow embedding, in Lean 4, of the core functions of the
Hermod repository (github.com/marcgeld/Hermod) and proves or refutes the
specification claims about them.

Embedded source functions:
* `internal/router/router.go`: `topicMatches` (identical in
  `internal/mqtt/mqtt.go`), `buildPassthroughRecord`, `worker.process`,
  `worker.parseRecords`, `lvalueToInterface`, `Router.Dispatch`,
  `Router.Close`, `passthroughHandler.handle`.
* `internal/schema/schema.go`: `Merge`, `TableSchema.ValidateRecord`.
* `internal/lua/lua.go`: `rot13String`.

Modelling conventions:
* Go strings are Lean `String`; Go runes are `Char` (comparisons done on the
  code point via `Char.toNat`, which is exactly Go's rune comparison).
* Go `float64` values are never computed with in the embedded code paths, so
  they are carried as their IEEE-754 bit pattern (`Nat`), purely inert.
* Go maps are association lists (`List (String × α)`) together with a lookup
  that returns the first (unique) binding; Go map assignment is an
  overwrite-or-append update.  The embedded code never depends on Go's
  nondeterministic map iteration order: wherever the source iterates a map,
  either the iteration entries are independent or only failure/success is
  claimed, and the list order stands in for one arbitrary iteration order.
* `json.Unmarshal` is kept abstract: functions that parse JSON take a
  `jsonParse : String → Option GoValue` argument, and theorems quantify over
  it.
* Channel/select semantics of `Router.Dispatch` are made explicit: which of
  several simultaneously ready `select` cases fires is an explicit `pick`
  argument; a send on a closed channel is ready and panics when chosen, as in
  the Go runtime.
* Aliasing and mutation in `schema.Merge` are modelled twice: once purely
  (value semantics, used for the algebraic claims) and once against an
  explicit heap of addressed maps (used for the frame claim that `Merge`
  never mutates its arguments).
-/

/-! ## Topic matcher: `topicMatches` (router.go 401-427, mqtt.go 215-246) -/

/-- Go `strings.Split(s, "/")`: auxiliary loop over the characters,
accumulating the current level. -/
def splitAux : List Char → List Char → List String
  | [], acc => [String.mk acc.reverse]
  | c :: rest, acc =>
    if c = '/' then String.mk acc.reverse :: splitAux rest []
    else splitAux rest (c :: acc)

/-- Go `strings.Split(s, "/")` for the single-character separator `/`.
`goSplit "" = [""]` and `goSplit "a//b" = ["a", "", "b"]`, exactly as in Go. -/
def goSplit (s : String) : List String := splitAux s.toList []

/-- The level-by-level loop of `topicMatches` (router.go 409-426).  The Go
loop walks the filter levels `fs` with index `i` against the topic levels
`ts`; the recursion consumes both lists in step. -/
def matchLevels : List String → List String → Bool
  | [], ts => ts.isEmpty
  | f :: fs, [] => f = "#" && fs.isEmpty
  | f :: fs, _t :: ts =>
    if f = "#" then fs.isEmpty
    else if f = "+" then matchLevels fs ts
    else if f = _t then matchLevels fs ts
    else false

/-- Function `topicMatches(filter, topic)` from router.go 401-427; the identical
function also appears in mqtt.go 215-246.  Fast paths for an exact match and
the bare `#` filter, then the level loop. -/
def topicMatches (filter topic : String) : Bool :=
  if filter = topic || filter = "#" then true
  else matchLevels (goSplit filter) (goSplit topic)

/-! ## Lua and Go runtime values (router.go 17-29, 457-490) -/

/-- A gopher-lua value as seen by the router: `LNil`, `LBool`, `LNumber`
(a float64, carried as its bit pattern, never computed with), `LString`,
and `LTable`.  An `LTable` is modelled by its array part (consecutive
integer keys `1..n`, so `MaxN = arr.length`) and its string-keyed hash part
(Lua table keys are unique). -/
inductive LuaValue where
  | lnil
  | lbool (b : Bool)
  | lnum (bits : Nat)
  | lstr (s : String)
  | ltable (arr : List LuaValue) (hash : List (String × LuaValue))
deriving Repr

/-- A Go `interface{}` value as produced by `lvalueToInterface` and
`buildPassthroughRecord`: JSON-style scalars plus the `int`, `time.Time`
values the passthrough record stores. -/
inductive GoValue where
  | vnull
  | vbool (b : Bool)
  | vnum (bits : Nat)
  | vint (n : Int)
  | vstr (s : String)
  | vtime (t : Nat)
  | varr (xs : List GoValue)
  | vmap (m : List (String × GoValue))
deriving Repr

/-- Lookup in an association-list model of a Go map: first binding wins
(bindings are unique in a real map). -/
def goLookup {α : Type} : List (String × α) → String → Option α
  | [], _ => none
  | kv :: rest, k => if kv.1 = k then some kv.2 else goLookup rest k

/-- Go map assignment `m[k] = v`: overwrite the existing binding, else
append a new one. -/
def mapSet {α : Type} (m : List (String × α)) (k : String) (v : α) :
    List (String × α) :=
  if m.any (fun kv => kv.1 = k) then
    m.map (fun kv => if kv.1 = k then (k, v) else kv)
  else m ++ [(k, v)]

/-- gopher-lua `RawGetString` on the hash part: the bound value, or `LNil`
when the key is absent. -/
def rawGetString (hash : List (String × LuaValue)) (k : String) : LuaValue :=
  (goLookup hash k).getD .lnil

/-- The regexp `^[A-Za-z0-9_]+$` (router.go 75, schema.go 24) as a character
predicate. -/
def isIdentChar (c : Char) : Bool :=
  (65 ≤ c.toNat && c.toNat ≤ 90) || (97 ≤ c.toNat && c.toNat ≤ 122) ||
    (48 ≤ c.toNat && c.toNat ≤ 57) || c = '_'

/-- Predicate `validIdentifier.MatchString(s)` for the anchored regexp
`^[A-Za-z0-9_]+$`: non-empty and every rune in the class. -/
def validIdentifier (s : String) : Bool :=
  !s.isEmpty && s.toList.all isIdentChar

mutual

/-- Function `lvalueToInterface` (router.go 458-490): Lua value to Go `interface{}`.
A table with a non-empty array part becomes a Go slice of its array entries;
otherwise its string-keyed entries become a Go map. -/
def lvalueToInterface : LuaValue → GoValue
  | .lstr s => .vstr s
  | .lnum bits => .vnum bits
  | .lbool b => .vbool b
  | .lnil => .vnull
  | .ltable arr hash =>
    if arr.length > 0 then .varr (lvaluesToInterface arr)
    else .vmap (lhashToInterface hash)

/-- Helper: `lvalueToInterface` mapped over the array part of a table. -/
def lvaluesToInterface : List LuaValue → List GoValue
  | [] => []
  | v :: vs => lvalueToInterface v :: lvaluesToInterface vs

/-- Helper: `lvalueToInterface` mapped over the string-keyed hash part of a table. -/
def lhashToInterface : List (String × LuaValue) → List (String × GoValue)
  | [] => []
  | kv :: rest => (kv.1, lvalueToInterface kv.2) :: lhashToInterface rest

end

/-! ## Messages and the passthrough encoder (router.go 22-29, 381-397) -/

/-- Structure `Message` (router.go 23-29).  The payload is carried as the Go string
`string(msg.Payload)`; the arrival instant is opaque. -/
structure Message where
  topic : String
  payload : String
  qos : Nat
  retain : Bool
  time : Nat
deriving Repr

/-- Function `buildPassthroughRecord` (router.go 381-397), parameterised by the
abstract `json.Unmarshal`: the five fixed columns, plus a `json` column
exactly when the payload parses as JSON. -/
def buildPassthroughRecord (jsonParse : String → Option GoValue)
    (msg : Message) : List (String × GoValue) :=
  [("time", .vtime msg.time), ("topic", .vstr msg.topic),
   ("qos", .vint msg.qos), ("retain", .vbool msg.retain),
   ("raw", .vstr msg.payload)] ++
  (match jsonParse msg.payload with
   | some v => [("json", v)]
   | none => [])

/-! ## The worker transform pipeline (router.go 195-320) -/

/-- Error outcomes of `worker.process` and its callees, as a closed enum in
place of the Go `fmt.Errorf` strings. -/
inductive ProcErr where
  | badTransformResult        -- "transform must return a table (array of records)"
  | notArray                  -- "transform must return an array of records"
  | recordNotTable (i : Nat)  -- "record %d is not a table"
  | missingColumns (i : Nat)  -- "record %d missing 'columns' table"
deriving Repr, DecidableEq

/-- Structure `Record` (router.go 17-20): target table and column map. -/
structure GoRecord where
  table : String
  columns : List (String × GoValue)
deriving Repr

/-- One iteration of the `parseRecords` loop (router.go 280-317) on the
`i`-th array entry: the entry must be a table; its `table` field contributes
the target table name when it is a string; its `columns` field must be a
table, whose string-keyed entries with valid identifier names become the
columns (invalid names are skipped). -/
def parseRecord (i : Nat) (recLV : LuaValue) : Except ProcErr GoRecord :=
  match recLV with
  | .ltable _ rhash =>
    let tableName :=
      match rawGetString rhash "table" with
      | .lstr s => s
      | _ => ""
    match rawGetString rhash "columns" with
    | .ltable _ chash =>
      let cols := chash.foldl
        (fun acc kv =>
          if validIdentifier kv.1 then mapSet acc kv.1 (lvalueToInterface kv.2)
          else acc) []
      .ok { table := tableName, columns := cols }
    | _ => .error (.missingColumns i)
  | _ => .error (.recordNotTable i)

/-- The indexed loop of `parseRecords` over the array part, indices
`1..MaxN`. -/
def parseRecordsAux : Nat → List LuaValue → Except ProcErr (List GoRecord)
  | _, [] => .ok []
  | i, r :: rs => do
    let r0 ← parseRecord i r
    let rest ← parseRecordsAux (i + 1) rs
    .ok (r0 :: rest)

/-- Function `worker.parseRecords` (router.go 271-320): an empty array part
(`MaxN() == 0`) is rejected outright, otherwise each entry is parsed in
order. -/
def parseRecords (arr : List LuaValue) : Except ProcErr (List GoRecord) :=
  if arr.length = 0 then .error .notArray
  else parseRecordsAux 1 arr

/-- The result handling of `worker.executeTransform` (router.go 259-267):
the transform's return value must be a table, whose array part is then
parsed by `parseRecords`. -/
def executeTransformResult (result : LuaValue) : Except ProcErr (List GoRecord) :=
  match result with
  | .ltable arr _ => parseRecords arr
  | _ => .error .badTransformResult

/-- The scripted branch of `worker.process` (router.go 206-224), given the
outcome of the Lua transform call: on success each record is inserted in
emission order, into the record's own table when non-empty, else into the
worker's default table.  No schema validation happens here; the sink is the
mock of the repository's tests, recording each insert and never failing. -/
def processScripted (defaultTable : String)
    (transformed : Except ProcErr (List GoRecord)) :
    Except ProcErr (List (String × List (String × GoValue))) :=
  match transformed with
  | .error e => .error e
  | .ok records =>
    .ok (records.map fun r =>
      (if r.table = "" then defaultTable else r.table, r.columns))

/-- The passthrough branch of `worker.process` (router.go 197-204): the
single insert a script-less worker performs for a message. -/
def processPassthrough (jsonParse : String → Option GoValue)
    (workerTable : String) (msg : Message) :
    String × List (String × GoValue) :=
  (if workerTable = "" ∨ workerTable = "iot_data" then "iot_raw"
   else workerTable,
   buildPassthroughRecord jsonParse msg)

/-- The target-table name a parsed record carries, read directly off the Lua
record table: the string value of its `table` field, or `""` when the field
is absent or not a string.  Used to relate `parseRecord` to the spec's
description of table selection. -/
def extractTableField (recLV : LuaValue) : String :=
  match recLV with
  | .ltable _ rhash =>
    match rawGetString rhash "table" with
    | .lstr s => s
    | _ => ""
  | _ => ""

/-! ## Schema registry, value semantics (schema.go 12-21, 164-207) -/

/-- Structure `TableSchema` (schema.go 13-16): table name and column → SQL-type map. -/
structure TableSchemaP where
  name : String
  columns : List (String × String)
deriving Repr, DecidableEq

/-- Structure `Schema` (schema.go 19-21): table name → table schema. -/
structure SchemaP where
  tables : List (String × TableSchemaP)
deriving Repr, DecidableEq

/-- The inner column-merging loop of `Merge` (schema.go 176-181): add each
incoming column unless one of that name already exists (first-seen type
wins). -/
def mergeColsP (existing incoming : List (String × String)) :
    List (String × String) :=
  incoming.foldl
    (fun acc kv => if (goLookup acc kv.1).isSome then acc else acc ++ [kv])
    existing

/-- Replacement of the binding of `k` in an association list; models an
update through the `*TableSchema` pointer held in the merged map. -/
def updAt (acc : List (String × TableSchemaP)) (k : String)
    (v : TableSchemaP) : List (String × TableSchemaP) :=
  acc.map (fun kv => if kv.1 = k then (k, v) else kv)

/-- One step of `Merge` (schema.go 173-193) on a single `(name, schema)`
entry of an input schema: merge columns into an existing table of that name,
else deep-copy the table schema in. -/
def mergeTableP (acc : List (String × TableSchemaP))
    (e : String × TableSchemaP) : List (String × TableSchemaP) :=
  match goLookup acc e.1 with
  | some ex =>
    updAt acc e.1 { ex with columns := mergeColsP ex.columns e.2.columns }
  | none => acc ++ [(e.1, { name := e.2.name, columns := e.2.columns })]

/-- Function `Merge` (schema.go 164-197), value semantics: fold every table of every
input schema, in argument order, into an initially empty result.  (The Go
`nil`-schema skip corresponds to the absent list element.) -/
def MergeP (schemas : List SchemaP) : SchemaP :=
  ⟨schemas.foldl (fun acc s => s.tables.foldl mergeTableP acc) []⟩

/-- Function `TableSchema.ValidateRecord` (schema.go 200-207): every column of the
record must be declared; the first undeclared column (in iteration order,
here list order) is reported as `(table, column)`. -/
def validateRecord (t : TableSchemaP) (cols : List (String × GoValue)) :
    Except (String × String) Unit :=
  match cols.find? (fun kv => (goLookup t.columns kv.1).isNone) with
  | some kv => .error (t.name, kv.1)
  | none => .ok ()

/-! ## Schema `Merge`, heap semantics (schema.go 164-197)

The frame claim (`Merge` never mutates its arguments) is about Go pointers
and maps, so it is settled against an explicit heap.  Addresses are `Nat`s
handed out by a bump allocator; three address spaces hold the three kinds of
mutable objects the Go code touches: column maps (`map[string]string`),
`TableSchema` objects (name plus the address of their column map), and
tables maps (`map[string]*TableSchema`, binding names to `TableSchema`
addresses).  A `*Schema` argument is the address of its tables map, or
`none` for a `nil` pointer (which `Merge` skips). -/

/-- The heap for the pointer-level model of `Merge`. -/
structure Heap where
  next : Nat
  colMaps : Nat → List (String × String)
  tsObjs : Nat → String × Nat
  tblMaps : Nat → List (String × Nat)

/-- Allocate a fresh column map. -/
def allocColMap (h : Heap) (v : List (String × String)) : Nat × Heap :=
  (h.next,
   { h with next := h.next + 1,
            colMaps := fun a => if a = h.next then v else h.colMaps a })

/-- Allocate a fresh `TableSchema` object. -/
def allocTsObj (h : Heap) (v : String × Nat) : Nat × Heap :=
  (h.next,
   { h with next := h.next + 1,
            tsObjs := fun a => if a = h.next then v else h.tsObjs a })

/-- Allocate a fresh tables map. -/
def allocTblMap (h : Heap) (v : List (String × Nat)) : Nat × Heap :=
  (h.next,
   { h with next := h.next + 1,
            tblMaps := fun a => if a = h.next then v else h.tblMaps a })

/-- Overwrite the column map at address `a`. -/
def writeColMap (h : Heap) (a : Nat) (v : List (String × String)) : Heap :=
  { h with colMaps := fun x => if x = a then v else h.colMaps x }

/-- Overwrite the tables map at address `a`. -/
def writeTblMap (h : Heap) (a : Nat) (v : List (String × Nat)) : Heap :=
  { h with tblMaps := fun x => if x = a then v else h.tblMaps x }

/-- The inner column loop of `Merge` (schema.go 176-181), heap semantics:
write each missing incoming column into the column map at `exCol`. -/
def mergeColsH (exCol : Nat) (incoming : List (String × String)) (h : Heap) :
    Heap :=
  incoming.foldl
    (fun h kv =>
      if (goLookup (h.colMaps exCol) kv.1).isSome then h
      else writeColMap h exCol (h.colMaps exCol ++ [kv]))
    h

/-- One entry of one input schema's tables map (schema.go 173-192), heap
semantics: either merge the entry's columns into the existing merged table
of that name, or allocate a deep copy (fresh column map, fresh `TableSchema`)
and bind it in the merged tables map at `mergedA`. -/
def mergeTableH (mergedA : Nat) (e : String × Nat) (h : Heap) : Heap :=
  let src := h.tsObjs e.2
  match goLookup (h.tblMaps mergedA) e.1 with
  | some exTsA => mergeColsH (h.tsObjs exTsA).2 (h.colMaps src.2) h
  | none =>
    let (ca, h1) := allocColMap h (h.colMaps src.2)
    let (ta, h2) := allocTsObj h1 (src.1, ca)
    writeTblMap h2 mergedA (h2.tblMaps mergedA ++ [(e.1, ta)])

/-- One input schema of `Merge` (schema.go 169-172), heap semantics: skip a
`nil` argument, else fold its tables map. -/
def mergeSchemaH (mergedA : Nat) (s : Option Nat) (h : Heap) : Heap :=
  match s with
  | none => h
  | some sa => (h.tblMaps sa).foldl (fun h e => mergeTableH mergedA e h) h

/-- Function `Merge` (schema.go 164-197), heap semantics: allocate the empty merged
tables map, then fold the arguments in order.  Returns the address of the
merged schema's tables map and the final heap. -/
def mergeH (schemas : List (Option Nat)) (h : Heap) : Nat × Heap :=
  let (mergedA, h1) := allocTblMap h []
  (mergedA, schemas.foldl (fun h s => mergeSchemaH mergedA s h) h1)

/-! ## `rot13String` (lua.go 242-252) -/

/-- One rune of `rot13String`: rotate within `a-z` or within `A-Z`, leave
every other rune unchanged.  The Go comparisons `r >= 'a'` etc. compare code
points, here via `Char.toNat` (97 = `a`, 122 = `z`, 65 = `A`, 90 = `Z`). -/
def rot13Char (c : Char) : Char :=
  if 97 ≤ c.toNat && c.toNat ≤ 122 then
    Char.ofNat (97 + (c.toNat - 97 + 13) % 26)
  else if 65 ≤ c.toNat && c.toNat ≤ 90 then
    Char.ofNat (65 + (c.toNat - 65 + 13) % 26)
  else c

/-- Function `rot13String` (lua.go 242-252): `[]rune(s)` mapped rune-wise and
reassembled. -/
def rot13String (s : String) : String :=
  String.mk (s.toList.map rot13Char)

/-! ## `Router.Dispatch` and `Router.Close` (router.go 323-356, 371-378) -/

/-- One route handler as `Dispatch` sees it: the route's filter and the
buffered channel, as its queued contents and capacity. -/
structure RouteH where
  filter : String
  queue : List Message
  capacity : Nat
deriving Repr

/-- Router state for `Dispatch`: the route handlers in declaration order,
the two effects of `Close()` (context cancelled, route channels closed), and
the inserts the passthrough fallback has performed. -/
structure RouterSt where
  routes : List RouteH
  ctxCancelled : Bool
  chanClosed : Bool
  passthroughInserts : List (String × List (String × GoValue))
deriving Repr

/-- Outcome of one `Dispatch` call.  There is no RouterClosed variant
because the source has none: after `Close()` the matching-route path either
observes the cancelled context or commits a send on a closed channel, which
panics in the Go runtime. -/
inductive DispatchResult where
  | ok
  | queueFullErr (filter : String)   -- "route %s queue full"
  | ctxCancelledErr                  -- "router context cancelled"
  | panicSendOnClosed                -- runtime panic: send on closed channel
deriving Repr, DecidableEq

/-- The `select` of `Dispatch` (router.go 327-335) on the first matching
route.  A send is ready when the channel is closed (committing it panics) or
the buffer has a free slot; the `ctx.Done()` receive is ready when the
context is cancelled; with neither ready the `default` case returns the
queue-full error.  When both are ready the Go runtime picks uniformly at
random; `pick = true` selects the send case. -/
def dispatchSelect (cancelled closed : Bool) (msg : Message) (h : RouteH)
    (pick : Bool) : DispatchResult × RouteH :=
  let sendReady := closed || h.queue.length < h.capacity
  let sendCase : DispatchResult × RouteH :=
    if closed then (.panicSendOnClosed, h)
    else (.ok, { h with queue := h.queue ++ [msg] })
  if sendReady && cancelled then
    if pick then sendCase else (.ctxCancelledErr, h)
  else if sendReady then sendCase
  else if cancelled then (.ctxCancelledErr, h)
  else (.queueFullErr h.filter, h)

/-- The route loop of `Dispatch` (router.go 325-337): the first route whose
filter matches the topic receives the message (through `dispatchSelect`);
`none` means no route matched. -/
def dispatchLoop (cancelled closed : Bool) (msg : Message) (pick : Bool) :
    List RouteH → Option (DispatchResult × List RouteH)
  | [] => none
  | h :: rest =>
    if topicMatches h.filter msg.topic then
      let (res, h') := dispatchSelect cancelled closed msg h pick
      some (res, h' :: rest)
    else
      match dispatchLoop cancelled closed msg pick rest with
      | some (res, rest') => some (res, h :: rest')
      | none => none

/-- Function `Router.Dispatch` (router.go 323-342): try the routes in order; if none
matches, `passthroughHandler.handle` (router.go 371-378) inserts the
canonical record into `iot_raw` unconditionally (it checks neither the
context nor any closed flag).  The model sink records the insert and
succeeds, as the mock storage of the repository's tests does. -/
def dispatch (jsonParse : String → Option GoValue) (st : RouterSt)
    (msg : Message) (pick : Bool) : DispatchResult × RouterSt :=
  match dispatchLoop st.ctxCancelled st.chanClosed msg pick st.routes with
  | some (res, routes') => (res, { st with routes := routes' })
  | none =>
    (.ok,
     { st with passthroughInserts :=
         st.passthroughInserts ++
           [("iot_raw", buildPassthroughRecord jsonParse msg)] })

/-- Function `Router.Close` (router.go 344-356) as it affects later `Dispatch` calls:
the shared context is cancelled and every route channel is closed.  No
closed flag that `Dispatch` could check is set anywhere. -/
def closeRouter (st : RouterSt) : RouterSt :=
  { st with ctxCancelled := true, chanClosed := true }

/-! ## Frame predicates for the heap model -/

/-- The two heaps agree, in all three address spaces, on every address below
`bound`. -/
def heapAgreesBelow (h0 h : Heap) (bound : Nat) : Prop :=
  ∀ a, a < bound →
    h.colMaps a = h0.colMaps a ∧ h.tsObjs a = h0.tsObjs a ∧
      h.tblMaps a = h0.tblMaps a

/-- Invariant of the `mergeH` fold: the allocator never retreats, the merged
tables map lives at a fresh address, and every `TableSchema` it binds — and
that object's column map — is fresh as well (at or above `bound`, below the
allocator mark). -/
def mergeInv (bound mergedA : Nat) (h : Heap) : Prop :=
  bound ≤ h.next ∧ bound ≤ mergedA ∧ mergedA < h.next ∧
    ∀ e ∈ h.tblMaps mergedA,
      bound ≤ e.2 ∧ e.2 < h.next ∧
        bound ≤ (h.tsObjs e.2).2 ∧ (h.tsObjs e.2).2 < h.next

/-! ## Helper lemmas -/

/-- Lookup distributes over list append: the left list wins. -/
theorem goLookup_append {α : Type} (l1 l2 : List (String × α)) (k : String) :
    goLookup (l1 ++ l2) k =
      match goLookup l1 k with
      | some v => some v
      | none => goLookup l2 k := by
  induction l1 with
  | nil => rfl
  | cons kv rest ih =>
    by_cases h : kv.1 = k <;> simp [goLookup, h, ih]

/-- A list member's key is found by lookup. -/
theorem goLookup_isSome_of_mem {α : Type} {l : List (String × α)}
    {e : String × α} (h : e ∈ l) : (goLookup l e.1).isSome := by
  induction l with
  | nil => cases h
  | cons kv rest ih =>
    rcases List.mem_cons.mp h with rfl | hm
    · simp [goLookup]
    · by_cases hk : kv.1 = e.1 <;> simp [goLookup, hk, ih hm]

/-- A successful lookup comes from a member binding. -/
theorem mem_of_goLookup_eq_some {α : Type} {l : List (String × α)}
    {k : String} {v : α} (h : goLookup l k = some v) : (k, v) ∈ l := by
  induction l with
  | nil => simp [goLookup] at h
  | cons kv rest ih =>
    by_cases hk : kv.1 = k
    · simp [goLookup, hk] at h
      have : kv = (k, v) := by
        cases kv
        simp_all
      rw [← this]
      exact List.mem_cons_self _ _
    · simp [goLookup, hk] at h
      exact List.mem_cons_of_mem _ (ih h)

/-! ## Claim C2: topic matcher equations -/

/-- Claim C2 counterexample: the claim asserts
`matches("a/#","a") = false`, but the source's `topicMatches` returns `true`
for this pair — the topic ends before the filter does, and the unmatched
filter tail is exactly `#` (router.go 410-412), which the code accepts.
(This is also the MQTT-standard result: `sport/#` matches `sport`.) -/
theorem topicMatches_hash_parent_counterexample :
    topicMatches "a/#" "a" = true := by decide

/-- Claim C2 amended: the matcher satisfies the five correct equations of
the claim, and on the sixth pair the result is `true`, not `false`:
`matches("+","a") = true`, `matches("+","a/b") = false`,
`matches("a/#","a") = true`, `matches("a/#","a/b/c") = true`,
`matches("#","anything/at/all") = true`, `matches("a/+/b","a//b") = true`. -/
theorem topicMatches_equations :
    topicMatches "+" "a" = true ∧
    topicMatches "+" "a/b" = false ∧
    topicMatches "a/#" "a" = true ∧
    topicMatches "a/#" "a/b/c" = true ∧
    topicMatches "#" "anything/at/all" = true ∧
    topicMatches "a/+/b" "a//b" = true := by
  refine ⟨?_, ?_, ?_, ?_, ?_, ?_⟩ <;> decide

/-! ## Claim C4: passthrough record columns -/

/-- Claim C4: for every message, the passthrough record's column list is
exactly `time, topic, qos, retain, raw`, extended by a `json` column exactly
when the payload parses as JSON; moreover the value looked up under `json`
is precisely the parse result (so the column is absent, not null-valued,
for non-JSON payloads). -/
theorem passthroughRecord_columns (jsonParse : String → Option GoValue)
    (msg : Message) :
    (buildPassthroughRecord jsonParse msg).map Prod.fst =
      ["time", "topic", "qos", "retain", "raw"] ++
        (if (jsonParse msg.payload).isSome then ["json"] else []) ∧
    goLookup (buildPassthroughRecord jsonParse msg) "json" =
      jsonParse msg.payload := by
  cases h : jsonParse msg.payload <;>
    simp [buildPassthroughRecord, goLookup, h]

/-! ## Claim C5: empty transform result -/

/-- Claim C5 fails on the code: a transform call that returns the empty
array (the legal drop both the spec and the repository's own tests and
README examples describe) is rejected by `parseRecords` with the
"transform must return an array of records" error (router.go 275-278,
`MaxN() == 0`), so `worker.process` reports the message as failed instead
of dropping it cleanly.  This theorem evaluates the code at the failing
input: an empty Lua table as transform result. -/
theorem emptyTransformResult_is_error :
    processScripted "parsed_data" (executeTransformResult (.ltable [] [])) =
      .error .notArray := rfl

/-! ## Claim C1: schema validation of emitted records -/

/-- Claim C1 fails on the code: `worker.process` (router.go 195-225) never
consults any schema — the `worker` struct holds no schema and
`TableSchema.ValidateRecord` has no caller outside the tests.  At the exact
scenario of the repository's own `TestWorkerSchemaValidation` (a script
declaring `test_table` with columns `time`, `value` and a transform emitting
an extra `invalid_column`), the worker hands the sink the record with the
undeclared column and succeeds, while `ValidateRecord` — embedded from
schema.go 200-207 — rejects that very record. -/
theorem undeclaredColumn_is_inserted :
    processScripted "test_table"
      (executeTransformResult
        (.ltable
          [.ltable []
            [("table", .lstr "test_table"),
             ("columns", .ltable []
               [("time", .lstr "2024-01-01T00:00:00Z"),
                ("value", .lnum 4631107791820423168),
                ("invalid_column", .lstr "should fail")])]]
          [])) =
      .ok [("test_table",
            [("time", .vstr "2024-01-01T00:00:00Z"),
             ("value", .vnum 4631107791820423168),
             ("invalid_column", .vstr "should fail")])] ∧
    validateRecord
        ⟨"test_table", [("time", "timestamptz"), ("value", "double precision")]⟩
        [("time", .vstr "2024-01-01T00:00:00Z"),
         ("value", .vnum 4631107791820423168),
         ("invalid_column", .vstr "should fail")] =
      .error ("test_table", "invalid_column") := by
  exact ⟨rfl, rfl⟩

/-! ## Claim C6: target-table selection -/

/-- Claim C6 counterexample: the claim says a record `table` field that
fails the identifier regex is replaced by the route's default table, but
`worker.process` (router.go 213-218) only checks for the empty string: a
record targeted at `bad-name` (hyphen, fails `^[A-Za-z0-9_]+$`) is passed
to the sink under `bad-name`, not under the default `sensor_data`. -/
theorem invalid_record_table_reaches_sink :
    processScripted "sensor_data"
      (executeTransformResult
        (.ltable
          [.ltable []
            [("table", .lstr "bad-name"),
             ("columns", .ltable [] [("v", .lstr "x")])]]
          [])) =
      .ok [("bad-name", [("v", .vstr "x")])] ∧
    validIdentifier "bad-name" = false := by
  exact ⟨rfl, rfl⟩

/-- Claim C6 amended: for every record emitted by a transform call, the
table passed to the sink is the record's `table` field when that field is a
non-empty string (no identifier-regex check happens at this stage — the
sink is left to validate identifiers), and otherwise the route's default
table; the parsed record's table is exactly the string value of the Lua
record's `table` field (absent or non-string values give the empty string);
and a passthrough worker whose table is the sentinel `iot_data` (or empty)
inserts into `iot_raw` instead. -/
theorem sink_table_selection (dflt : String) (records : List GoRecord)
    (i : Nat) (v : LuaValue) (r : GoRecord)
    (jsonParse : String → Option GoValue) (workerTable : String)
    (msg : Message) :
    processScripted dflt (.ok records) =
      .ok (records.map fun rec =>
        (if rec.table = "" then dflt else rec.table, rec.columns)) ∧
    (parseRecord i v = .ok r → r.table = extractTableField v) ∧
    (processPassthrough jsonParse workerTable msg).1 =
      (if workerTable = "" ∨ workerTable = "iot_data" then "iot_raw"
       else workerTable) := by
  refine ⟨rfl, ?_, rfl⟩
  intro h
  cases v with
  | ltable arr rhash =>
    simp only [parseRecord] at h
    cases hc : rawGetString rhash "columns" <;> rw [hc] at h
    case ltable carr chash =>
      rw [← Except.ok.inj h]
      rfl
    all_goals cases h
  | lnil => cases h
  | lbool b => cases h
  | lnum bits => cases h
  | lstr s => cases h

/-- Witness for the amended claim C6 at concrete inputs: a record with an
empty `table` field goes to the default table, a parsed record's table is
the string value of its `table` field, and the `iot_data` sentinel is
rewritten to `iot_raw` on the passthrough path. -/
theorem sink_table_selection_witness :
    processScripted "dflt" (.ok [⟨"", [("a", .vint 1)]⟩]) =
      .ok [("dflt", [("a", .vint 1)])] ∧
    (⟨"t1", []⟩ : GoRecord).table =
      extractTableField
        (.ltable [] [("table", .lstr "t1"), ("columns", .ltable [] [])]) ∧
    (processPassthrough (fun _ => none) "iot_data" ⟨"t", "p", 0, false, 0⟩).1 =
      "iot_raw" := by
  have h := sink_table_selection "dflt" [⟨"", [("a", .vint 1)]⟩] 1
    (.ltable [] [("table", .lstr "t1"), ("columns", .ltable [] [])])
    ⟨"t1", []⟩ (fun _ => none) "iot_data" ⟨"t", "p", 0, false, 0⟩
  exact ⟨h.1, h.2.1 rfl, h.2.2⟩

/-! ## Claims C3 and C7: Dispatch -/

/-- On an open router (context live, channels open), the route loop answers
the queue-full error for the first matching route when its buffer has no
free slot, and touches no queue. -/
theorem dispatchLoop_queue_full (msg : Message) (pick : Bool)
    (routes : List RouteH) (h : RouteH)
    (hfind : routes.find? (fun rt => topicMatches rt.filter msg.topic) =
      some h)
    (hfull : h.capacity ≤ h.queue.length) :
    dispatchLoop false false msg pick routes =
      some (.queueFullErr h.filter, routes) := by
  induction routes with
  | nil => cases hfind
  | cons r rest ih =>
    cases hm : topicMatches r.filter msg.topic with
    | true =>
      simp only [List.find?, hm] at hfind
      have hr : r = h := Option.some.inj hfind
      subst hr
      simp [dispatchLoop, hm, dispatchSelect, Nat.not_lt.mpr hfull]
    | false =>
      simp only [List.find?, hm] at hfind
      simp [dispatchLoop, hm, ih hfind]

/-- When no route's filter matches the topic, the route loop finds
nothing. -/
theorem dispatchLoop_no_match (cancelled closed : Bool) (msg : Message)
    (pick : Bool) (routes : List RouteH)
    (hfind : routes.find? (fun rt => topicMatches rt.filter msg.topic) =
      none) :
    dispatchLoop cancelled closed msg pick routes = none := by
  induction routes with
  | nil => rfl
  | cons r rest ih =>
    cases hm : topicMatches r.filter msg.topic with
    | true =>
      simp only [List.find?, hm] at hfind
      cases hfind
    | false =>
      simp only [List.find?, hm] at hfind
      simp [dispatchLoop, hm, ih hfind]

/-- After `Close()` (context cancelled and channels closed), the route loop
on a matching route never enqueues: the send case is ready on the closed
channel and panics when picked, else the cancelled-context case answers;
either way the routes are untouched. -/
theorem dispatchLoop_closed (msg : Message) (pick : Bool)
    (routes : List RouteH) (h : RouteH)
    (hfind : routes.find? (fun rt => topicMatches rt.filter msg.topic) =
      some h) :
    dispatchLoop true true msg pick routes =
      some ((if pick then .panicSendOnClosed else .ctxCancelledErr),
        routes) := by
  induction routes with
  | nil => cases hfind
  | cons r rest ih =>
    cases hm : topicMatches r.filter msg.topic with
    | true =>
      cases pick <;> simp [dispatchLoop, hm, dispatchSelect]
    | false =>
      simp only [List.find?, hm] at hfind
      simp [dispatchLoop, hm, ih hfind]

/-- Claim C3: on an open router, if the first route whose filter matches the
message's topic has a full queue, `Dispatch` answers the queue-full error
for that route at once — the `select` falls through to its `default` case —
and the router state, in particular every queue, is unchanged.  `Dispatch`
is a total function of the pre-state, so its answer never depends on worker
progress. -/
theorem dispatch_queue_full (jsonParse : String → Option GoValue)
    (st : RouterSt) (msg : Message) (pick : Bool) (h : RouteH)
    (hopen1 : st.ctxCancelled = false) (hopen2 : st.chanClosed = false)
    (hfind : st.routes.find? (fun rt => topicMatches rt.filter msg.topic) =
      some h)
    (hfull : h.capacity ≤ h.queue.length) :
    dispatch jsonParse st msg pick = (.queueFullErr h.filter, st) := by
  obtain ⟨routes, cc, ch, pi⟩ := st
  have hcc : cc = false := hopen1
  have hch : ch = false := hopen2
  subst hcc
  subst hch
  have hloop := dispatchLoop_queue_full msg pick routes h hfind hfull
  unfold dispatch
  rw [hloop]

/-- Witness for claim C3: one route `sensors/+` with capacity 1 and one
queued message; a second matching message is refused with the queue-full
error and the state is unchanged. -/
theorem dispatch_queue_full_witness :
    dispatch (fun _ => none)
      ⟨[⟨"sensors/+", [⟨"sensors/b", "x", 0, false, 0⟩], 1⟩],
        false, false, []⟩
      ⟨"sensors/a", "y", 0, false, 1⟩ true =
      (.queueFullErr "sensors/+",
       ⟨[⟨"sensors/+", [⟨"sensors/b", "x", 0, false, 0⟩], 1⟩],
         false, false, []⟩) :=
  dispatch_queue_full (fun _ => none) _ _ true
    ⟨"sensors/+", [⟨"sensors/b", "x", 0, false, 0⟩], 1⟩ rfl rfl rfl
    (by decide)

/-- Claim C7 counterexample: the claim says every `Dispatch` after `Close()`
fails with a RouterClosed error and in particular never inserts through the
passthrough fallback.  On the closed router below, a message whose topic
matches no route is still handed to `passthroughHandler.handle`
(router.go 339-341, which checks neither the context nor any closed flag):
`Dispatch` returns success and the passthrough insert into `iot_raw` is
performed. -/
theorem dispatch_after_close_counterexample :
    dispatch (fun _ => none)
      (closeRouter ⟨[⟨"sensors/+", [], 4⟩], false, false, []⟩)
      ⟨"other/x", "hello", 1, false, 0⟩ true =
      (.ok,
       ⟨[⟨"sensors/+", [], 4⟩], true, true,
        [("iot_raw",
          [("time", .vtime 0), ("topic", .vstr "other/x"),
           ("qos", .vint 1), ("retain", .vbool false),
           ("raw", .vstr "hello")])]⟩) := rfl

/-- Claim C7 amended: the source has no RouterClosed error.  After
`Close()` (context cancelled, route channels closed), a `Dispatch` whose
topic matches a route never enqueues the message: depending on which ready
`select` case the runtime picks it either panics — the send commits on a
closed channel — or returns the context-cancelled error, with the routes
untouched; and a `Dispatch` whose topic matches no route is handled by the
passthrough fallback exactly as on an open router, inserting the canonical
record into `iot_raw` and returning success. -/
theorem dispatch_after_close (jsonParse : String → Option GoValue)
    (st : RouterSt) (msg : Message) (pick : Bool)
    (hc : st.ctxCancelled = true) (hcl : st.chanClosed = true) :
    (∀ h,
      st.routes.find? (fun rt => topicMatches rt.filter msg.topic) =
        some h →
      dispatch jsonParse st msg pick =
        ((if pick then .panicSendOnClosed else .ctxCancelledErr), st)) ∧
    (st.routes.find? (fun rt => topicMatches rt.filter msg.topic) = none →
      dispatch jsonParse st msg pick =
        (.ok,
         { st with passthroughInserts :=
             st.passthroughInserts ++
               [("iot_raw", buildPassthroughRecord jsonParse msg)] })) := by
  obtain ⟨routes, cc, ch, pi⟩ := st
  have hcc : cc = true := hc
  have hch : ch = true := hcl
  subst hcc
  subst hch
  constructor
  · intro h hfind
    have hloop := dispatchLoop_closed msg pick routes h hfind
    unfold dispatch
    rw [hloop]
  · intro hfind
    have hloop := dispatchLoop_no_match true true msg pick routes hfind
    unfold dispatch
    rw [hloop]

/-- Witness for the amended claim C7: on a concrete closed router, a
matching `Dispatch` with the context case picked returns the
context-cancelled error and leaves the state unchanged. -/
theorem dispatch_after_close_witness :
    dispatch (fun _ => none)
      ⟨[⟨"sensors/+", [], 4⟩], true, true, []⟩
      ⟨"sensors/a", "z", 0, false, 0⟩ false =
      (.ctxCancelledErr, ⟨[⟨"sensors/+", [], 4⟩], true, true, []⟩) :=
  (dispatch_after_close (fun _ => none)
      ⟨[⟨"sensors/+", [], 4⟩], true, true, []⟩
      ⟨"sensors/a", "z", 0, false, 0⟩ false rfl rfl).1
    ⟨"sensors/+", [], 4⟩ rfl

/-! ## Claim C10: rot13 -/

/-- Building a `Char` from a valid code point and reading it back is the
identity. -/
theorem charOfNat_toNat (n : Nat) (h : n.isValidChar) :
    (Char.ofNat n).toNat = n := by
  simp only [Char.ofNat, h, dite_true, Char.ofNatAux, Char.toNat]
  rfl

/-- Characters with equal code points are equal. -/
theorem char_toNat_inj {c d : Char} (h : c.toNat = d.toNat) : c = d :=
  Char.ext (UInt32.ext h)

/-- Double rotation by 13 modulo 26 is the identity on residues. -/
theorem rot13_mod26 : ∀ k < 26, ((k + 13) % 26 + 13) % 26 = k := by decide

/-- On a lower-case letter, `rot13Char` lands on the rotated lower-case
code point. -/
theorem rot13Char_lower {c : Char} (h1 : 97 ≤ c.toNat) (h2 : c.toNat ≤ 122) :
    (rot13Char c).toNat = 97 + (c.toNat - 97 + 13) % 26 := by
  have hb : (97 + (c.toNat - 97 + 13) % 26).isValidChar := by
    have : (c.toNat - 97 + 13) % 26 < 26 := Nat.mod_lt _ (by norm_num)
    exact Or.inl (by omega)
  unfold rot13Char
  rw [if_pos (by simp only [Bool.and_eq_true, decide_eq_true_eq]; omega)]
  exact charOfNat_toNat _ hb

/-- On an upper-case letter, `rot13Char` lands on the rotated upper-case
code point. -/
theorem rot13Char_upper {c : Char} (h1 : 65 ≤ c.toNat) (h2 : c.toNat ≤ 90) :
    (rot13Char c).toNat = 65 + (c.toNat - 65 + 13) % 26 := by
  have hb : (65 + (c.toNat - 65 + 13) % 26).isValidChar := by
    have : (c.toNat - 65 + 13) % 26 < 26 := Nat.mod_lt _ (by norm_num)
    exact Or.inl (by omega)
  unfold rot13Char
  rw [if_neg (by simp only [Bool.and_eq_true, decide_eq_true_eq]; omega),
    if_pos (by simp only [Bool.and_eq_true, decide_eq_true_eq]; omega)]
  exact charOfNat_toNat _ hb

/-- Outside both letter ranges, `rot13Char` is the identity. -/
theorem rot13Char_other {c : Char} (h1 : ¬(97 ≤ c.toNat ∧ c.toNat ≤ 122))
    (h2 : ¬(65 ≤ c.toNat ∧ c.toNat ≤ 90)) : rot13Char c = c := by
  unfold rot13Char
  rw [if_neg (by simp only [Bool.and_eq_true, decide_eq_true_eq]; omega),
    if_neg (by simp only [Bool.and_eq_true, decide_eq_true_eq]; omega)]

/-- Lemma: `rot13Char` is an involution on every character. -/
theorem rot13Char_invol (c : Char) : rot13Char (rot13Char c) = c := by
  by_cases h1 : 97 ≤ c.toNat ∧ c.toNat ≤ 122
  · obtain ⟨ha, hb⟩ := h1
    have hm := rot13Char_lower ha hb
    have hk : (c.toNat - 97 + 13) % 26 < 26 := Nat.mod_lt _ (by norm_num)
    have hm2 := rot13Char_lower (c := rot13Char c) (by omega) (by omega)
    apply char_toNat_inj
    rw [hm2, hm]
    have h3 : 97 + (c.toNat - 97 + 13) % 26 - 97 + 13 =
        (c.toNat - 97 + 13) % 26 + 13 := by omega
    rw [h3, rot13_mod26 (c.toNat - 97) (by omega)]
    omega
  · by_cases h2 : 65 ≤ c.toNat ∧ c.toNat ≤ 90
    · obtain ⟨ha, hb⟩ := h2
      have hm := rot13Char_upper ha hb
      have hk : (c.toNat - 65 + 13) % 26 < 26 := Nat.mod_lt _ (by norm_num)
      have hm2 := rot13Char_upper (c := rot13Char c) (by omega) (by omega)
      apply char_toNat_inj
      rw [hm2, hm]
      have h3 : 65 + (c.toNat - 65 + 13) % 26 - 65 + 13 =
          (c.toNat - 65 + 13) % 26 + 13 := by omega
      rw [h3, rot13_mod26 (c.toNat - 65) (by omega)]
      omega
    · rw [rot13Char_other h1 h2, rot13Char_other h1 h2]

/-- Claim C10: the script helper `rot13` is an involution —
`rot13(rot13(s)) = s` for every string — and per character it maps `a-z`
into `a-z`, maps `A-Z` into `A-Z`, and leaves every character outside both
ranges (digits, punctuation, non-ASCII) unchanged. -/
theorem rot13_involution (s : String) (c : Char) :
    rot13String (rot13String s) = s ∧
    (97 ≤ c.toNat ∧ c.toNat ≤ 122 →
      97 ≤ (rot13Char c).toNat ∧ (rot13Char c).toNat ≤ 122) ∧
    (65 ≤ c.toNat ∧ c.toNat ≤ 90 →
      65 ≤ (rot13Char c).toNat ∧ (rot13Char c).toNat ≤ 90) ∧
    (¬(97 ≤ c.toNat ∧ c.toNat ≤ 122) → ¬(65 ≤ c.toNat ∧ c.toNat ≤ 90) →
      rot13Char c = c) := by
  refine ⟨?_, ?_, ?_, rot13Char_other⟩
  · show String.mk (((String.mk (s.toList.map rot13Char)).toList.map
      rot13Char)) = s
    have h1 : (String.mk (s.toList.map rot13Char)).toList =
        s.toList.map rot13Char := rfl
    rw [h1, List.map_map]
    have h2 : s.toList.map (rot13Char ∘ rot13Char) = s.toList.map id :=
      List.map_congr_left (fun c _ => rot13Char_invol c)
    rw [h2, List.map_id]
    rfl
  · rintro ⟨ha, hb⟩
    have hm := rot13Char_lower ha hb
    have hk : (c.toNat - 97 + 13) % 26 < 26 := Nat.mod_lt _ (by norm_num)
    omega
  · rintro ⟨ha, hb⟩
    have hm := rot13Char_upper ha hb
    have hk : (c.toNat - 65 + 13) % 26 < 26 := Nat.mod_lt _ (by norm_num)
    omega

/-- Witness for claim C10 at concrete inputs: a round trip through `rot13`
restores a mixed string, and the letter `a` (code point 97) stays inside
`a-z`. -/
theorem rot13_involution_witness :
    rot13String (rot13String "Hello, World! 123") = "Hello, World! 123" ∧
    (97 ≤ ('a' : Char).toNat ∧ ('a' : Char).toNat ≤ 122) ∧
    (97 ≤ (rot13Char 'a').toNat ∧ (rot13Char 'a').toNat ≤ 122) :=
  ⟨(rot13_involution "Hello, World! 123" 'a').1, by decide,
   (rot13_involution "Hello, World! 123" 'a').2.1 (by decide)⟩

/-! ## Claim C8: Merge algebra -/

/-- Folding tables whose keys are fresh for the accumulator just appends
them: each step takes the deep-copy branch of `mergeTableP`, and the copy is
the entry itself under value semantics. -/
theorem mergeTableP_fold_app (l : List (String × TableSchemaP)) :
    ∀ acc, (l.map Prod.fst).Nodup → (∀ e ∈ l, goLookup acc e.1 = none) →
      l.foldl mergeTableP acc = acc ++ l := by
  induction l with
  | nil => intro acc _ _; simp
  | cons e rest ih =>
    intro acc hnd hfresh
    have he : goLookup acc e.1 = none := hfresh e (List.mem_cons_self _ _)
    have hstep : mergeTableP acc e = acc ++ [e] := by
      unfold mergeTableP
      rw [he]
    have hnd' := (List.nodup_cons.mp hnd).2
    have hnotin := (List.nodup_cons.mp hnd).1
    have hfresh' : ∀ e' ∈ rest, goLookup (acc ++ [e]) e'.1 = none := by
      intro e' he'
      rw [goLookup_append, hfresh e' (List.mem_cons_of_mem _ he')]
      have hne : e.1 ≠ e'.1 := by
        intro hcontra
        exact hnotin (hcontra ▸ List.mem_map_of_mem Prod.fst he')
      simp [goLookup, hne]
    show List.foldl mergeTableP (mergeTableP acc e) rest = acc ++ e :: rest
    rw [hstep, ih (acc ++ [e]) hnd' hfresh']
    simp

/-- Lemma: `updAt` leaves the lookup of other keys alone. -/
theorem goLookup_updAt_ne {acc : List (String × TableSchemaP)}
    {k t : String} (v : TableSchemaP) (h : k ≠ t) :
    goLookup (updAt acc k v) t = goLookup acc t := by
  induction acc with
  | nil => rfl
  | cons kv rest ih =>
    show goLookup ((if kv.1 = k then (k, v) else kv) :: updAt rest k v) t =
      goLookup (kv :: rest) t
    by_cases hk : kv.1 = k
    · rw [if_pos hk]
      show (if k = t then some v else goLookup (updAt rest k v) t) =
        (if kv.1 = t then some kv.2 else goLookup rest t)
      rw [if_neg h, if_neg (hk ▸ h), ih]
    · rw [if_neg hk]
      show (if kv.1 = t then some kv.2 else goLookup (updAt rest k v) t) =
        (if kv.1 = t then some kv.2 else goLookup rest t)
      rw [ih]

/-- Lemma: `updAt` rebinds a present key. -/
theorem goLookup_updAt_eq {acc : List (String × TableSchemaP)} {k : String}
    (v : TableSchemaP) (h : (goLookup acc k).isSome) :
    goLookup (updAt acc k v) k = some v := by
  induction acc with
  | nil => simp [goLookup] at h
  | cons kv rest ih =>
    show goLookup ((if kv.1 = k then (k, v) else kv) :: updAt rest k v) k =
      some v
    by_cases hk : kv.1 = k
    · rw [if_pos hk]
      show (if k = k then some v else goLookup (updAt rest k v) k) = some v
      rw [if_pos rfl]
    · rw [if_neg hk]
      simp only [goLookup, hk] at h
      show (if kv.1 = k then some kv.2 else goLookup (updAt rest k v) k) =
        some v
      rw [if_neg hk]
      exact ih (by simpa [hk] using h)

/-- One `mergeTableP` step does not disturb the lookup of another key. -/
theorem mergeTableP_goLookup_ne (acc : List (String × TableSchemaP))
    (e : String × TableSchemaP) {t : String} (h : e.1 ≠ t) :
    goLookup (mergeTableP acc e) t = goLookup acc t := by
  unfold mergeTableP
  cases hl : goLookup acc e.1 with
  | some ex => exact goLookup_updAt_ne _ h
  | none =>
    rw [goLookup_append]
    cases hg : goLookup acc t <;> simp [goLookup, h]

/-- One `mergeTableP` step on a key already bound in the accumulator merges
the columns into the existing entry, first-seen types preserved. -/
theorem mergeTableP_goLookup_eq (acc : List (String × TableSchemaP))
    (e : String × TableSchemaP) {ex : TableSchemaP}
    (h : goLookup acc e.1 = some ex) :
    goLookup (mergeTableP acc e) e.1 =
      some { ex with columns := mergeColsP ex.columns e.2.columns } := by
  unfold mergeTableP
  rw [h]
  exact goLookup_updAt_eq _ (by simp [h])

/-- Folding entries none of which carries key `t` does not change the
lookup of `t`. -/
theorem fold_goLookup_of_not_mem (l : List (String × TableSchemaP)) :
    ∀ acc, (∀ e ∈ l, e.1 ≠ t) →
      goLookup (l.foldl mergeTableP acc) t = goLookup acc t := by
  induction l with
  | nil => intro acc _; rfl
  | cons e rest ih =>
    intro acc h
    show goLookup (List.foldl mergeTableP (mergeTableP acc e) rest) t = _
    rw [ih _ (fun e' he' => h e' (List.mem_cons_of_mem _ he')),
      mergeTableP_goLookup_ne acc e (h e (List.mem_cons_self _ _))]

/-- Folding a key-unique entry list over an accumulator that already binds
`t` to `ex` merges exactly the columns of the list's single `t` entry into
`ex`. -/
theorem fold_goLookup_single (l : List (String × TableSchemaP)) :
    ∀ acc (ex ts2 : TableSchemaP), (l.map Prod.fst).Nodup →
      goLookup acc t = some ex → goLookup l t = some ts2 →
      goLookup (l.foldl mergeTableP acc) t =
        some { ex with columns := mergeColsP ex.columns ts2.columns } := by
  induction l with
  | nil => intro acc ex ts2 _ _ hl; simp [goLookup] at hl
  | cons e rest ih =>
    intro acc ex ts2 hnd hacc hl
    have hnd' := (List.nodup_cons.mp hnd).2
    have hnotin := (List.nodup_cons.mp hnd).1
    by_cases he : e.1 = t
    · have hts2 : ts2 = e.2 := by
        simp [goLookup, he] at hl
        exact hl.symm
      subst hts2
      show goLookup (List.foldl mergeTableP (mergeTableP acc e) rest) t = _
      rw [fold_goLookup_of_not_mem rest _ ?_, ← he,
        mergeTableP_goLookup_eq acc e (he ▸ hacc)]
      intro e' he' hcontra
      exact hnotin (he ▸ hcontra ▸ List.mem_map_of_mem Prod.fst he')
    · have hl' : goLookup rest t = some ts2 := by
        simpa [goLookup, he] using hl
      show goLookup (List.foldl mergeTableP (mergeTableP acc e) rest) t = _
      rw [ih _ ex ts2 hnd' (by rw [mergeTableP_goLookup_ne acc e he]; exact hacc) hl']

/-- Column lookup after `mergeColsP`: the existing (first-seen) binding
wins, the incoming binding fills the gaps — the left-biased union. -/
theorem mergeColsP_goLookup (inc : List (String × String)) :
    ∀ (ex : List (String × String)) (c : String),
      goLookup (mergeColsP ex inc) c =
        match goLookup ex c with
        | some ty => some ty
        | none => goLookup inc c := by
  induction inc with
  | nil => intro ex c; cases hex : goLookup ex c <;> simp [mergeColsP, hex, goLookup]
  | cons kv rest ih =>
    intro ex c
    show goLookup (mergeColsP
      (if (goLookup ex kv.1).isSome then ex else ex ++ [kv]) rest) c = _
    by_cases hp : (goLookup ex kv.1).isSome
    · rw [if_pos hp, ih ex c]
      by_cases hc : kv.1 = c
      · subst hc
        obtain ⟨v, hv⟩ := Option.isSome_iff_exists.mp hp
        simp [hv, goLookup]
      · cases hex : goLookup ex c <;> simp [hex, goLookup, hc]
    · rw [if_neg hp, ih (ex ++ [kv]) c, goLookup_append]
      have hnone : goLookup ex kv.1 = none :=
        Option.not_isSome_iff_eq_none.mp hp
      by_cases hc : kv.1 = c
      · subst hc
        simp [hnone, goLookup]
      · cases hex : goLookup ex c <;> simp [hex, goLookup, hc]

/-- Claim C8: `Merge` is commutative (as a map, i.e. lookup-wise) on
schemas with disjoint table sets, and when a table occurs in both arguments
the merged table binds the union of the column names with the first
argument's (first-seen) type string kept for every repeated column name.
The key-uniqueness hypotheses state that the table lists model Go maps. -/
theorem merge_comm_and_left_bias (s1 s2 : SchemaP)
    (h1 : (s1.tables.map Prod.fst).Nodup)
    (h2 : (s2.tables.map Prod.fst).Nodup) :
    ((∀ k, goLookup s1.tables k = none ∨ goLookup s2.tables k = none) →
      ∀ k, goLookup (MergeP [s1, s2]).tables k =
        goLookup (MergeP [s2, s1]).tables k) ∧
    (∀ t ts1 ts2, goLookup s1.tables t = some ts1 →
      goLookup s2.tables t = some ts2 →
      ∃ tsm, goLookup (MergeP [s1, s2]).tables t = some tsm ∧
        tsm.name = ts1.name ∧
        ∀ c, goLookup tsm.columns c =
          match goLookup ts1.columns c with
          | some ty => some ty
          | none => goLookup ts2.columns c) := by
  have base : ∀ (s : SchemaP), (s.tables.map Prod.fst).Nodup →
      s.tables.foldl mergeTableP [] = s.tables := by
    intro s h
    have := mergeTableP_fold_app s.tables [] h (fun _ _ => rfl)
    simpa using this
  have happ : ∀ (sa sb : SchemaP), (sa.tables.map Prod.fst).Nodup →
      (sb.tables.map Prod.fst).Nodup →
      (∀ e ∈ sb.tables, goLookup sa.tables e.1 = none) →
      (MergeP [sa, sb]).tables = sa.tables ++ sb.tables := by
    intro sa sb ha hb hfresh
    show sb.tables.foldl mergeTableP (sa.tables.foldl mergeTableP []) = _
    rw [base sa ha, mergeTableP_fold_app sb.tables sa.tables hb hfresh]
  constructor
  · intro hdisj k
    have hfresh12 : ∀ e ∈ s2.tables, goLookup s1.tables e.1 = none := by
      intro e he
      rcases hdisj e.1 with h | h
      · exact h
      · exact absurd (goLookup_isSome_of_mem he) (by simp [h])
    have hfresh21 : ∀ e ∈ s1.tables, goLookup s2.tables e.1 = none := by
      intro e he
      rcases hdisj e.1 with h | h
      · exact absurd (goLookup_isSome_of_mem he) (by simp [h])
      · exact h
    rw [happ s1 s2 h1 h2 hfresh12, happ s2 s1 h2 h1 hfresh21,
      goLookup_append, goLookup_append]
    rcases hdisj k with h | h
    · rw [h]
      cases hx : goLookup s2.tables k <;> simp
    · rw [h]
      cases hx : goLookup s1.tables k <;> simp
  · intro t ts1 ts2 hl1 hl2
    refine ⟨{ ts1 with columns := mergeColsP ts1.columns ts2.columns },
      ?_, rfl, fun c => ?_⟩
    · show goLookup (s2.tables.foldl mergeTableP
        (s1.tables.foldl mergeTableP [])) t = _
      rw [base s1 h1]
      exact fold_goLookup_single s2.tables s1.tables ts1 ts2 h2 hl1 hl2
    · exact mergeColsP_goLookup ts2.columns ts1.columns c

/-- Witness for claim C8 at concrete schemas: disjoint tables `a`, `b`
merge the same in either order (checked at key `b`), and a table `t`
declared in both arguments gets the union of columns with the first
argument's type for the repeated column `x`. -/
theorem merge_comm_and_left_bias_witness :
    goLookup (MergeP [⟨[("a", ⟨"a", [("x", "text")]⟩)]⟩,
        ⟨[("b", ⟨"b", [("y", "int")]⟩)]⟩]).tables "b" =
      goLookup (MergeP [⟨[("b", ⟨"b", [("y", "int")]⟩)]⟩,
        ⟨[("a", ⟨"a", [("x", "text")]⟩)]⟩]).tables "b" ∧
    (∃ tsm, goLookup (MergeP [⟨[("t", ⟨"t", [("x", "text")]⟩)]⟩,
        ⟨[("t", ⟨"t", [("x", "jsonb"), ("y", "int")]⟩)]⟩]).tables "t" =
        some tsm ∧
      tsm.name = "t" ∧
      ∀ c, goLookup tsm.columns c =
        match goLookup [("x", "text")] c with
        | some ty => some ty
        | none => goLookup [("x", "jsonb"), ("y", "int")] c) := by
  constructor
  · refine (merge_comm_and_left_bias
      ⟨[("a", ⟨"a", [("x", "text")]⟩)]⟩
      ⟨[("b", ⟨"b", [("y", "int")]⟩)]⟩ (by simp) (by simp)).1 ?_ "b"
    intro k
    by_cases hk : "a" = k
    · right
      simp [goLookup, ← hk]
    · left
      simp [goLookup, hk]
  · exact (merge_comm_and_left_bias
      ⟨[("t", ⟨"t", [("x", "text")]⟩)]⟩
      ⟨[("t", ⟨"t", [("x", "jsonb"), ("y", "int")]⟩)]⟩
      (by simp) (by simp)).2 "t" ⟨"t", [("x", "text")]⟩
      ⟨"t", [("x", "jsonb"), ("y", "int")]⟩ rfl rfl

/-! ## Claim C9: Merge never mutates its arguments -/

/-- Agreement below a bound is transitive. -/
theorem heapAgreesBelow_trans {h0 h1 h2 : Heap} {bound : Nat}
    (a01 : heapAgreesBelow h0 h1 bound) (a12 : heapAgreesBelow h1 h2 bound) :
    heapAgreesBelow h0 h2 bound := by
  intro a ha
  exact ⟨(a12 a ha).1.trans (a01 a ha).1,
    (a12 a ha).2.1.trans (a01 a ha).2.1,
    (a12 a ha).2.2.trans (a01 a ha).2.2⟩

/-- Lemma: `mergeColsH` only writes the column map at `exCol`: the allocator, the
`TableSchema` objects, the tables maps and every other column map are
untouched. -/
theorem mergeColsH_effects (exCol : Nat) (cols : List (String × String)) :
    ∀ h : Heap, (mergeColsH exCol cols h).next = h.next ∧
      (mergeColsH exCol cols h).tsObjs = h.tsObjs ∧
      (mergeColsH exCol cols h).tblMaps = h.tblMaps ∧
      ∀ a, a ≠ exCol → (mergeColsH exCol cols h).colMaps a = h.colMaps a := by
  induction cols with
  | nil => intro h; exact ⟨rfl, rfl, rfl, fun _ _ => rfl⟩
  | cons kv rest ih =>
    intro h
    have key : mergeColsH exCol (kv :: rest) h = mergeColsH exCol rest
        (if (goLookup (h.colMaps exCol) kv.1).isSome then h
         else writeColMap h exCol (h.colMaps exCol ++ [kv])) := rfl
    rw [key]
    by_cases hp : (goLookup (h.colMaps exCol) kv.1).isSome
    · rw [if_pos hp]
      exact ih h
    · rw [if_neg hp]
      obtain ⟨hn, hts, htbl, hcm⟩ :=
        ih (writeColMap h exCol (h.colMaps exCol ++ [kv]))
      refine ⟨hn, hts, htbl, fun a ha => ?_⟩
      rw [hcm a ha]
      show (if a = exCol then _ else h.colMaps a) = h.colMaps a
      rw [if_neg ha]

/-- The existing-table branch of `mergeTableH`. -/
theorem mergeTableH_some (mergedA : Nat) (e : String × Nat) (h : Heap)
    {exTsA : Nat} (hl : goLookup (h.tblMaps mergedA) e.1 = some exTsA) :
    mergeTableH mergedA e h =
      mergeColsH (h.tsObjs exTsA).2 (h.colMaps (h.tsObjs e.2).2) h := by
  simp only [mergeTableH, hl]

/-- The fresh-table branch of `mergeTableH`: two allocations and one write
to the merged tables map. -/
theorem mergeTableH_none (mergedA : Nat) (e : String × Nat) (h : Heap)
    (hl : goLookup (h.tblMaps mergedA) e.1 = none) :
    mergeTableH mergedA e h =
      { next := h.next + 2,
        colMaps := fun a =>
          if a = h.next then h.colMaps (h.tsObjs e.2).2 else h.colMaps a,
        tsObjs := fun a =>
          if a = h.next + 1 then ((h.tsObjs e.2).1, h.next) else h.tsObjs a,
        tblMaps := fun x =>
          if x = mergedA then h.tblMaps mergedA ++ [(e.1, h.next + 1)]
          else h.tblMaps x } := by
  simp only [mergeTableH, hl, allocColMap, allocTsObj, writeTblMap]

/-- One `mergeTableH` step preserves the merge invariant and leaves every
address below the bound untouched. -/
theorem mergeTableH_preserve (bound mergedA : Nat) (e : String × Nat)
    (h : Heap) (hinv : mergeInv bound mergedA h) :
    mergeInv bound mergedA (mergeTableH mergedA e h) ∧
    heapAgreesBelow h (mergeTableH mergedA e h) bound := by
  obtain ⟨hb, hbm, hma, hent⟩ := hinv
  cases hl : goLookup (h.tblMaps mergedA) e.1 with
  | some exTsA =>
    rw [mergeTableH_some mergedA e h hl]
    have hmem : (e.1, exTsA) ∈ h.tblMaps mergedA := mem_of_goLookup_eq_some hl
    obtain ⟨he1, he2, he3, he4⟩ := hent (e.1, exTsA) hmem
    dsimp only at he1 he2 he3 he4
    obtain ⟨hn, hts, htbl, hcm⟩ :=
      mergeColsH_effects (h.tsObjs exTsA).2 (h.colMaps (h.tsObjs e.2).2) h
    constructor
    · refine ⟨?_, hbm, ?_, ?_⟩
      · rw [hn]; exact hb
      · rw [hn]; exact hma
      · intro e' he'
        rw [htbl] at he'
        simp only [hn, hts]
        exact hent e' he'
    · intro a ha
      refine ⟨?_, ?_, ?_⟩
      · exact hcm a (by omega)
      · rw [hts]
      · rw [htbl]
  | none =>
    rw [mergeTableH_none mergedA e h hl]
    constructor
    · refine ⟨?_, hbm, ?_, ?_⟩
      · show bound ≤ h.next + 2
        omega
      · show mergedA < h.next + 2
        omega
      · intro e' he'
        have he2 : e' ∈ h.tblMaps mergedA ++ [(e.1, h.next + 1)] := by
          simpa using he'
        rcases List.mem_append.mp he2 with hold | hnew
        · obtain ⟨hx1, hx2, hx3, hx4⟩ := hent e' hold
          have hne : e'.2 ≠ h.next + 1 := by omega
          refine ⟨hx1, ?_, ?_, ?_⟩
          · show e'.2 < h.next + 2
            omega
          · show bound ≤ (if e'.2 = h.next + 1
              then ((h.tsObjs e.2).1, h.next) else h.tsObjs e'.2).2
            rw [if_neg hne]
            exact hx3
          · show (if e'.2 = h.next + 1
              then ((h.tsObjs e.2).1, h.next) else h.tsObjs e'.2).2 <
              h.next + 2
            rw [if_neg hne]
            omega
        · have he3 : e' = (e.1, h.next + 1) := by simpa using hnew
          subst he3
          refine ⟨?_, ?_, ?_, ?_⟩
          · show bound ≤ h.next + 1
            omega
          · show h.next + 1 < h.next + 2
            omega
          · show bound ≤ (if h.next + 1 = h.next + 1
              then ((h.tsObjs e.2).1, h.next) else h.tsObjs (h.next + 1)).2
            rw [if_pos rfl]
            exact hb
          · show (if h.next + 1 = h.next + 1
              then ((h.tsObjs e.2).1, h.next) else h.tsObjs (h.next + 1)).2 <
              h.next + 2
            rw [if_pos rfl]
            show h.next < h.next + 2
            omega
    · intro a ha
      have h1 : a ≠ h.next := by omega
      have h2 : a ≠ h.next + 1 := by omega
      have h3 : a ≠ mergedA := by omega
      refine ⟨?_, ?_, ?_⟩
      · show (if a = h.next then _ else h.colMaps a) = h.colMaps a
        rw [if_neg h1]
      · show (if a = h.next + 1 then _ else h.tsObjs a) = h.tsObjs a
        rw [if_neg h2]
      · show (if a = mergedA then _ else h.tblMaps a) = h.tblMaps a
        rw [if_neg h3]


/-- Folding `mergeTableH` over any entry list preserves the invariant and
the frame. -/
theorem foldl_mergeTableH_preserve (bound mergedA : Nat)
    (l : List (String × Nat)) :
    ∀ h, mergeInv bound mergedA h →
      mergeInv bound mergedA
        (l.foldl (fun h e => mergeTableH mergedA e h) h) ∧
      heapAgreesBelow h (l.foldl (fun h e => mergeTableH mergedA e h) h)
        bound := by
  induction l with
  | nil => intro h hinv; exact ⟨hinv, fun a _ => ⟨rfl, rfl, rfl⟩⟩
  | cons e rest ih =>
    intro h hinv
    obtain ⟨hinv1, hagr1⟩ := mergeTableH_preserve bound mergedA e h hinv
    obtain ⟨hinv2, hagr2⟩ := ih (mergeTableH mergedA e h) hinv1
    exact ⟨hinv2, heapAgreesBelow_trans hagr1 hagr2⟩

/-- One input schema of `mergeH` preserves the invariant and the frame. -/
theorem mergeSchemaH_preserve (bound mergedA : Nat) (s : Option Nat)
    (h : Heap) (hinv : mergeInv bound mergedA h) :
    mergeInv bound mergedA (mergeSchemaH mergedA s h) ∧
    heapAgreesBelow h (mergeSchemaH mergedA s h) bound := by
  cases s with
  | none => exact ⟨hinv, fun a _ => ⟨rfl, rfl, rfl⟩⟩
  | some sa => exact foldl_mergeTableH_preserve bound mergedA (h.tblMaps sa) h hinv

/-- The schema fold of `mergeH` preserves the invariant and the frame. -/
theorem foldl_mergeSchemaH_preserve (bound mergedA : Nat)
    (ss : List (Option Nat)) :
    ∀ h, mergeInv bound mergedA h →
      mergeInv bound mergedA
        (ss.foldl (fun h s => mergeSchemaH mergedA s h) h) ∧
      heapAgreesBelow h (ss.foldl (fun h s => mergeSchemaH mergedA s h) h)
        bound := by
  induction ss with
  | nil => intro h hinv; exact ⟨hinv, fun a _ => ⟨rfl, rfl, rfl⟩⟩
  | cons s rest ih =>
    intro h hinv
    obtain ⟨hinv1, hagr1⟩ := mergeSchemaH_preserve bound mergedA s h hinv
    obtain ⟨hinv2, hagr2⟩ := ih (mergeSchemaH mergedA s h) hinv1
    exact ⟨hinv2, heapAgreesBelow_trans hagr1 hagr2⟩

/-- Claim C9: `Merge` never mutates its arguments.  For every heap and
every list of `*Schema` arguments (addresses of tables maps, `none` for a
`nil` pointer), every object allocated before the call — in particular
every input schema's tables map, every `TableSchema` it points to, and
every column map — is unchanged after `mergeH`, including when several
inputs declare the same table and their columns are combined: the merged
result is built exclusively from freshly allocated deep copies. -/
theorem merge_never_mutates_inputs (schemas : List (Option Nat))
    (h0 : Heap) :
    ∀ a, a < h0.next →
      (mergeH schemas h0).2.colMaps a = h0.colMaps a ∧
      (mergeH schemas h0).2.tsObjs a = h0.tsObjs a ∧
      (mergeH schemas h0).2.tblMaps a = h0.tblMaps a := by
  intro a ha
  have hinv1 : mergeInv h0.next h0.next (allocTblMap h0 []).2 := by
    refine ⟨by simp [allocTblMap], Nat.le_refl _, by simp [allocTblMap], ?_⟩
    intro e he
    simp [allocTblMap] at he
  obtain ⟨_, hagr⟩ := foldl_mergeSchemaH_preserve h0.next h0.next schemas
    (allocTblMap h0 []).2 hinv1
  have hfinal : (mergeH schemas h0).2 =
      schemas.foldl (fun h s => mergeSchemaH h0.next s h)
        (allocTblMap h0 []).2 := rfl
  rw [hfinal]
  obtain ⟨hc, ht, hb⟩ := hagr a ha
  refine ⟨hc.trans ?_, ht.trans ?_, hb.trans ?_⟩
  · rfl
  · rfl
  · show (if a = h0.next then ([] : List (String × Nat)) else h0.tblMaps a) =
      h0.tblMaps a
    rw [if_neg (by omega)]

/-- Witness for claim C9 at a concrete heap: two schemas both declaring
table `t` (addresses 2 and 5) are merged; the first schema's column map
(address 0), `TableSchema` object (address 1) and tables map (address 2)
are all unchanged afterwards. -/
theorem merge_never_mutates_inputs_witness :
    (mergeH [some 2, some 5]
        ⟨6,
         fun a => if a = 0 then [("c1", "text")]
           else if a = 3 then [("c2", "int")] else [],
         fun a => if a = 1 then ("t", 0)
           else if a = 4 then ("t", 3) else ("", 0),
         fun a => if a = 2 then [("t", 1)]
           else if a = 5 then [("t", 4)] else []⟩).2.colMaps 0 =
      [("c1", "text")] ∧
    (mergeH [some 2, some 5]
        ⟨6,
         fun a => if a = 0 then [("c1", "text")]
           else if a = 3 then [("c2", "int")] else [],
         fun a => if a = 1 then ("t", 0)
           else if a = 4 then ("t", 3) else ("", 0),
         fun a => if a = 2 then [("t", 1)]
           else if a = 5 then [("t", 4)] else []⟩).2.tsObjs 1 = ("t", 0) ∧
    (mergeH [some 2, some 5]
        ⟨6,
         fun a => if a = 0 then [("c1", "text")]
           else if a = 3 then [("c2", "int")] else [],
         fun a => if a = 1 then ("t", 0)
           else if a = 4 then ("t", 3) else ("", 0),
         fun a => if a = 2 then [("t", 1)]
           else if a = 5 then [("t", 4)] else []⟩).2.tblMaps 2 =
      [("t", 1)] := by
  refine ⟨(merge_never_mutates_inputs [some 2, some 5] _ 0 ?_).1,
    (merge_never_mutates_inputs [some 2, some 5] _ 1 ?_).2.1,
    (merge_never_mutates_inputs [some 2, some 5] _ 2 ?_).2.2⟩ <;> norm_num
